import Mathlib

/-!
# Verification of the tbgdb scraper and statistics code

Shallow embedding of `src/scraper.py` (persistence upserts, discovery /
scan phases, review-phase priority) and
`src/mostpan_ext/more_stats.py` (`message_count_over_time` query
composition and gap filling), together with the error-handler table of
`src/server.py`.

Conventions:
* SQL `NULL`-able columns are `Option` fields; `ifnull(excluded.f, f)`
  becomes `Option.or new old`.
* Python dicts produced by `defaultdict(lambda: None)` are structures of
  `Option` fields (a missing key is `none`).
* sqlite tables keyed by an integer id are functions `Int → Option Row`;
  the rows scanned by the statistics query are a `List`.
* A Python exception escaping a function is an explicit `Bool` success
  flag (the partial writes made before the exception are kept, as they
  are on the real connection).
* `datetime.now()` is passed in as an explicit `now` parameter.
-/

namespace Tbgdb

/-- A user record as parsed from a forum page (`user_dict` in
`update_user`); every field may be missing, missing keys read as `None`
through `defaultdict(lambda: None)`. -/
structure UserDict where
  uid : Option Int
  name : Option String
  avatar : Option String
  userGroup : Option String
  posts : Option String
  signature : Option String
  email : Option String
  blurb : Option String
  location : Option String
  realName : Option String
  social : Option String
  website : Option String
  gender : Option String
  lastScraped : Option String
deriving DecidableEq

/-- A stored row of the `Users` table (all non-key columns nullable). -/
structure UserRow where
  name : Option String
  avatar : Option String
  userGroup : Option String
  posts : Option String
  signature : Option String
  email : Option String
  blurb : Option String
  location : Option String
  realName : Option String
  social : Option String
  website : Option String
  gender : Option String
  lastScraped : Option String
deriving DecidableEq

/-- The `insert` arm of `update_user`: the fresh row carries exactly the
record's values. -/
def insertUserRow (u : UserDict) : UserRow :=
  ⟨u.name, u.avatar, u.userGroup, u.posts, u.signature, u.email, u.blurb,
   u.location, u.realName, u.social, u.website, u.gender, u.lastScraped⟩

/-- The `on conflict(uid) do update set f=ifnull(excluded.f, f)` arm of
`update_user`: a null incoming value keeps the stored one. -/
def mergeUserRow (u : UserDict) (old : UserRow) : UserRow :=
  ⟨u.name.or old.name, u.avatar.or old.avatar, u.userGroup.or old.userGroup,
   u.posts.or old.posts, u.signature.or old.signature, u.email.or old.email,
   u.blurb.or old.blurb, u.location.or old.location,
   u.realName.or old.realName, u.social.or old.social,
   u.website.or old.website, u.gender.or old.gender,
   u.lastScraped.or old.lastScraped⟩

/-- Embedding of `update_user` from `src/scraper.py`.  Modelled from the spec: the
repository's `schema.sql` is not under `src/`, so the key column `uid`
is modelled as a required (`NOT NULL`) key per §3 of the spec; inserting
a record with no `uid` is a store error, reported by the `false` flag
with the table unchanged. -/
def updateUser (u : UserDict) (tbl : Int → Option UserRow) :
    (Int → Option UserRow) × Bool :=
  match u.uid with
  | none => (tbl, false)
  | some uid =>
    (fun k =>
      if k = uid then
        some (match tbl uid with
          | none => insertUserRow u
          | some old => mergeUserRow u old)
      else tbl k,
     true)

/-- A message record as parsed from a forum page (`msg_dict` in
`update_msg`); missing keys read as `None` through
`defaultdict(lambda: None)`.  `mid` is the key every call site supplies. -/
structure MsgDict where
  mid : Int
  subject : Option String
  date : Option String
  edited : Option String
  content : Option String
  icon : Option String
  tid : Option Int
  topicName : Option String
  bid : Option Int
  boardName : Option String
  user : Option UserDict
deriving DecidableEq

/-- A stored row of the `Messages` table (non-key columns nullable). -/
structure MessageRow where
  subject : Option String
  date : Option String
  edited : Option String
  content : Option String
  icon : Option String
  user : Option Int
  tid : Option Int
  lastScraped : Option String
deriving DecidableEq

/-- A stored row of the `Topics` table: `topic_name` and `bid` are
nullable until resolved. -/
structure TopicRow where
  topicName : Option String
  bid : Option Int
deriving DecidableEq

/-- The scraper's database: the four id-keyed tables touched by
`update_msg` / `update_user`.  A `Boards` row stores its (nullable)
`board_name`. -/
structure ScraperDB where
  messages : Int → Option MessageRow
  users : Int → Option UserRow
  topics : Int → Option TopicRow
  boards : Int → Option (Option String)

/-- The `on conflict(mid) do update set f=ifnull(excluded.f, f)` arm of the
`Messages` upsert: `new` carries the excluded (incoming) values. -/
def mergeMessageRow (new old : MessageRow) : MessageRow :=
  ⟨new.subject.or old.subject, new.date.or old.date,
   new.edited.or old.edited, new.content.or old.content,
   new.icon.or old.icon, new.user.or old.user, new.tid.or old.tid,
   new.lastScraped.or old.lastScraped⟩

/-- Embedding of `update_msg` from `src/scraper.py`:
1. if `bid` is set, `insert or replace` the `Boards` row;
2. `insert or replace` the `Topics` row (modelled from the spec:
   `schema.sql` is absent from `src/`, `tid` is modelled as a required
   key per §3, so a record with no `tid` is a store error after the
   `Boards` write);
3. `update_user(maybe_msg_dict["user"])` — when the record has no
   `user` key this is `update_user(None)`, whose
   `maybe_user_dict.update(None)` raises `TypeError`, so the run fails
   with only the earlier writes kept;
4. upsert the `Messages` row keyed by `mid`, with `uid` drawn from the
   user dict and `last_scraped` set to `now`. -/
def updateMsg (r : MsgDict) (now : String) (db : ScraperDB) :
    ScraperDB × Bool :=
  let db1 : ScraperDB :=
    match r.bid with
    | some b =>
      { db with boards := fun k => if k = b then some r.boardName else db.boards k }
    | none => db
  match r.tid with
  | none => (db1, false)
  | some t =>
    let db2 : ScraperDB :=
      { db1 with topics := fun k => if k = t then some ⟨r.topicName, r.bid⟩ else db1.topics k }
    match r.user with
    | none => (db2, false)
    | some u =>
      let res := updateUser u db2.users
      let db3 : ScraperDB := { db2 with users := res.1 }
      if res.2 then
        let newRow : MessageRow :=
          ⟨r.subject, r.date, r.edited, r.content, r.icon, u.uid, r.tid,
           some now⟩
        ({ db3 with
            messages := fun k =>
              if k = r.mid then
                some (match db3.messages r.mid with
                  | none => newRow
                  | some old => mergeMessageRow newRow old)
              else db3.messages k },
         true)
      else (db3, false)

/-! ## The crawl phases (main loop of `src/scraper.py`) -/

/-- The `GREEDY_SCRAPE` configuration constant of `src/scraper.py`. -/
def GREEDY_SCRAPE : Bool := false

/-- The forum client as seen by the scan / review phases:
`page mid` is the outcome of `api.get_message_page` (`none` models the
`TBGRequestError` "not found" rejection, after the indefinite
transient-error retry), and `bbc mid` is the content obtained by
`get_bbc` (`none` models the quotefast request failing, upon which
`get_bbc` blanks the content). -/
structure ScanEnv where
  page : Int → Option (List MsgDict)
  bbc : Int → Option String

/-- Embedding of `get_bbc` from `src/scraper.py`: overwrite the record's content with
the raw BBC, or with `None` when the post is deleted. -/
def getBbc (env : ScanEnv) (m : MsgDict) : MsgDict :=
  { m with content := env.bbc m.mid }

/-- The per-page store loop shared by the scan and review phases
(`for msg in topic_page.contents: ...` in `src/scraper.py`): messages
other than the requested one keep no content unless `GREEDY_SCRAPE`;
every record is passed to `update_msg`.  A failing `update_msg` aborts
the phase (the exception escapes the cycle), keeping earlier writes. -/
def storePage (env : ScanEnv) (reqMid : Int) (now : String) :
    ScraperDB → List MsgDict → ScraperDB × Bool
  | db, [] => (db, true)
  | db, m :: rest =>
    let m' := if GREEDY_SCRAPE || m.mid = reqMid then getBbc env m
              else { m with content := none }
    let res := updateMsg m' now db
    if res.2 then storePage env reqMid now res.1 rest else (res.1, false)

/-- The scan phase of `src/scraper.py` over its iteration order of
message ids:
* `select content from Messages where mid=?` — when `fetchone()` is not
  `None` (a row exists, whatever its content) the id is skipped;
* otherwise the containing page is fetched; a "not found" rejection is
  treated as deleted and skipped;
* the page's records are stored via `storePage`.
Returns the final database, the list of ids whose page was fetched, and
whether the phase ran to completion. -/
def scanPhase (env : ScanEnv) (now : String) :
    ScraperDB → List Int → ScraperDB × List Int × Bool
  | db, [] => (db, [], true)
  | db, mid :: rest =>
    if (db.messages mid).isSome then scanPhase env now db rest
    else
      match env.page mid with
      | none => scanPhase env now db rest
      | some msgs =>
        let res := storePage env mid now db msgs
        if res.2 then
          let r := scanPhase env now res.1 rest
          (r.1, mid :: r.2.1, r.2.2)
        else (res.1, [mid], false)

/-- One page of the discovery loop of `src/scraper.py`
(`for msg in recent.contents: get_bbc(msg); update_msg(msg);
if msg["mid"] <= last_mid: break`): every listed message is
raw-content-scraped and stored *before* the watermark check, so the
first message at or below `last_mid` is still processed; the returned
flag records whether the `break` fired. -/
def discoveryPage (lastMid : Int) : List Int → List Int × Bool
  | [] => ([], false)
  | mid :: rest =>
    if mid ≤ lastMid then ([mid], true)
    else
      let r := discoveryPage lastMid rest
      (mid :: r.1, r.2)

/-- The discovery phase over the first ten recent-activity pages
(`for i in range(10)` with the `for`/`else` double break): pages are
consumed in order until one of them hits the watermark.  Returns the
ids processed (fetched with `get_bbc` and stored with `update_msg`). -/
def discoveryPhase (lastMid : Int) : List (List Int) → List Int
  | [] => []
  | page :: rest =>
    let r := discoveryPage lastMid page
    if r.2 then r.1 else r.1 ++ discoveryPhase lastMid rest

/-- The ids the discovery phase fetches and stores, given the
high watermark `lastMid` and the recent-activity listing. -/
def discoveryProcessed (lastMid : Int) (pages : List (List Int)) : List Int :=
  discoveryPhase lastMid (pages.take 10)

/-! ## The review-phase priority query (`src/scraper.py`) -/

/-- The `RECENT_POWER` configuration constant of `src/scraper.py`. -/
noncomputable def RECENT_POWER : ℝ := 5

/-- The `HALF_TIME` configuration constant (3 hours), in seconds as bound
to `:half_time`. -/
noncomputable def HALF_TIME_SECONDS : ℝ := 10800

/-- The value bound to `:multiplier` in the review query:
`RECENT_POWER - 1`. -/
noncomputable def reviewMultiplierParam : ℝ := RECENT_POWER - 1

/-- The divisor applied to the `log2` term for an id with a stored
message, from the review query:
`pow(2, -(unixepoch() - unixepoch(date)) / :half_time) * :multiplier + 1`. -/
noncomputable def codeWeight (age halfTime mult : ℝ) : ℝ :=
  (2 : ℝ) ^ (-age / halfTime) * mult + 1

/-- The outer select's aliased expression
`62 - log2(abs(random() / 2)) as priority` of the review query, as a
function of the drawn `random()` value. -/
noncomputable def seriesPriority (rand : ℝ) : ℝ :=
  62 - Real.logb 2 |rand / 2|

/-- The expression the review query's joined subquery computes for a
`Messages` row:
`62 - log2(abs(random() / 2)) / (pow(2, -(age) / :half_time) * :multiplier + 1)`
(SQL `/` binds tighter than `-`, so only the `log2` term is divided).
This column is dead code: SQLite resolves the outer query's bare
`order by priority` to the outer select's output alias, so the value is
never selected and never ordered by. -/
noncomputable def storedPriority (rand age halfTime mult : ℝ) : ℝ :=
  62 - Real.logb 2 |rand / 2| / codeWeight age halfTime mult

/-- The ordering key `order by priority` actually assigns a candidate
row of the review query: the bare column name resolves to the outer
select's output alias (not to the like-named joined subquery column),
so every row — whether or not a stored message joined onto it, and
whatever the dead weighted column `deadWeighted` holds — is keyed by
its own fresh unweighted draw. -/
noncomputable def operativePriority (rand : ℝ) (deadWeighted : Option ℝ) : ℝ :=
  seriesPriority rand

/-- The priority key as the spec's words describe it (claim C9): the
whole uniform draw divided by a weight
`multiplier / (2^(-age/half_time)) + 1`.  Kept for comparison with the
operative key; it is *not* what the source computes. -/
noncomputable def specClaimedPriorityKey (rand age halfTime mult : ℝ) : ℝ :=
  seriesPriority rand / (mult / ((2 : ℝ) ^ (-age / halfTime)) + 1)

/-! ## Error handling of the API layer (`src/server.py` and
`src/mostpan_ext/more_stats.py`) -/

/-- The exception classes for which `src/server.py` registers an
`errorhandler`. -/
inductive ApiException
  | valueError
  | typeError
  | exceptionGroup
  | sqliteError
  | importError
deriving DecidableEq

/-- The HTTP status each `@api.errorhandler` of `src/server.py`
attaches: `handle_400_exceptions` returns `handle_exception(e, 400)`
for `ValueError` / `TypeError` / `ExceptionGroup`, and
`handle_422_exceptions` — registered for `sqlite3.Error` — also returns
`handle_exception(e, 400)`; `handle_501_exceptions` returns 501. -/
def errorhandlerStatus : ApiException → Nat
  | .valueError => 400
  | .typeError => 400
  | .exceptionGroup => 400
  | .sqliteError => 400
  | .importError => 501

/-- The failure modes of `message_count_over_time` named by claim C6. -/
inductive StatsFailure
  | badSample
  | rangeExceedsLimit
  | tooManyConditions
  | malformedDate
  | storeError
deriving DecidableEq

/-- The exception each failure raises in
`src/mostpan_ext/more_stats.py`: the validation checks `raise
ValueError(...)`, a malformed date makes `datetime.fromisoformat` raise
`ValueError`, and a backing-store failure surfaces as
`sqlite3.Error`. -/
def statsFailureException : StatsFailure → ApiException
  | .badSample => .valueError
  | .rangeExceedsLimit => .valueError
  | .tooManyConditions => .valueError
  | .malformedDate => .valueError
  | .storeError => .sqliteError

/-- The HTTP status the API returns for each statistics failure mode. -/
def statsFailureStatus (f : StatsFailure) : Nat :=
  errorhandlerStatus (statsFailureException f)

/-! ## `message_count_over_time` (`src/mostpan_ext/more_stats.py`)

The combination keys (the condition strings built from the request) are
an abstract type `K` with decidable equality; the WHERE clause of one
combination is its boolean predicate on a message row.  Bucket labels
(the values of `strftime(:datefmt, date)`) are an abstract linearly
ordered type `B`: both the SQL window `order by strftime(...)` and
Python's `sorted(result.items())` order buckets by that same label
order. -/

/-- The columns of a `Messages` row the counting query reads. -/
structure SMsg where
  mid : Int
  dateEpoch : Int
  user : Int
  tid : Int
deriving DecidableEq

/-- A `Topics` row as read by the query's joins. -/
structure STopic where
  topicName : Option String
  bid : Option Int
deriving DecidableEq

/-- The store as read by the statistics query. -/
structure StatsDb where
  msgs : List SMsg
  topics : Int → Option STopic
  boards : Int → Option String

/-- The joins `from Messages join Topics using (tid) join Boards using (bid)`:
a message row survives the inner joins iff its topic row exists, that
topic's `bid` is non-null, and the board row exists. -/
def joinOk (db : StatsDb) (m : SMsg) : Bool :=
  match db.topics m.tid with
  | some t =>
    match t.bid with
    | some b => (db.boards b).isSome
    | none => false
  | none => false

/-- The request-derived inputs of `message_count_over_time`: the list of
combination keys (one per output series), each key's condition, the
`cumulative` flag, the time range, and the bucketing `strftime`. -/
structure StatsQuery (K B : Type) where
  combos : List K
  condOf : K → SMsg → Bool
  cumulative : Bool
  startEpoch : Int
  endEpoch : Int
  fmt : Int → B

section Stats

variable {K B : Type} [DecidableEq K] [LinearOrder B]

/-- The rows selected for one combination:
`where (message_conditions) and (unixepoch(date) > start and
unixepoch(date) < end)` after the joins. -/
def qRows (q : StatsQuery K B) (db : StatsDb) (k : K) : List SMsg :=
  db.msgs.filter (fun m =>
    joinOk db m && q.condOf k m &&
    decide (q.startEpoch < m.dateEpoch) && decide (m.dateEpoch < q.endEpoch))

/-- The distinct group keys (`group by time`) of one combination's
query. -/
def labelsOf (q : StatsQuery K B) (db : StatsDb) (k : K) : List B :=
  ((qRows q db k).map (fun m => q.fmt m.dateEpoch)).dedup

/-- The `count` column for group `b` of one combination's query:
`count(*)` per group, or the running window sum
`sum(count(*)) over (order by strftime(:datefmt, date))` — the number
of selected rows whose label is at most `b` — when cumulative. -/
def countAt (q : StatsQuery K B) (db : StatsDb) (k : K) (b : B) : Nat :=
  if q.cumulative then
    (qRows q db k).countP (fun m => decide (q.fmt m.dateEpoch ≤ b))
  else
    (qRows q db k).countP (fun m => decide (q.fmt m.dateEpoch = b))

/-- The keys of the `result` dict after all per-combination queries, in
the order `sorted(result.items())` visits them: every bucket label
carrying at least one row of some combination, ascending. -/
def allBucketLabels (q : StatsQuery K B) (db : StatsDb) : List B :=
  List.insertionSort (· ≤ ·) ((q.combos.flatMap (labelsOf q db)).dedup)

/-- The dict `result[b]` before the fill loop: one entry per combination whose
query produced group `b`, in combination order
(`result.setdefault(item["time"], {}).update({message_conditions:
item["count"]})`). -/
def pointAt (q : StatsQuery K B) (db : StatsDb) (b : B) : List (K × Nat) :=
  (q.combos.filter (fun k => decide (b ∈ labelsOf q db k))).map
    (fun k => (k, countAt q db k b))

/-- The list `sorted(result.items())`: the buckets with their raw points, in
ascending label order. -/
def resultList (q : StatsQuery K B) (db : StatsDb) :
    List (B × List (K × Nat)) :=
  (allBucketLabels q db).map (fun b => (b, pointAt q db b))

/-- Dict lookup on an association list (first match wins, as for a
Python dict whose later duplicate inserts are prevented). -/
def alookup {α : Type} : List (K × α) → K → Option α
  | [], _ => none
  | (k', v) :: rest, k => if k = k' then some v else alookup rest k

/-- One `point.setdefault(message_conditions, int(last_value[...]) if
cumulative else 0)` step of the fill loop.  Python evaluates the
default argument first, so in cumulative mode a key absent from
`last_value` raises `KeyError` (the `.error ()` outcome) even before
`setdefault` looks at `point`. -/
def setdefaultFill (cumulative : Bool) (lastV point : List (K × Nat))
    (k : K) : Except Unit (List (K × Nat)) :=
  match (if cumulative then alookup lastV k else some 0) with
  | none => .error ()
  | some d => .ok (if (alookup point k).isSome then point else point ++ [(k, d)])

/-- The loop `for message_conditions in combinations: point.setdefault(...)` for
one bucket; `lastV` is `last_value` *after* `last_value.update(point)`. -/
def fillCombos (cumulative : Bool) (lastV : List (K × Nat)) :
    List K → List (K × Nat) → Except Unit (List (K × Nat))
  | [], point => .ok point
  | k :: ks, point =>
    match setdefaultFill cumulative lastV point k with
    | .error e => .error e
    | .ok point' => fillCombos cumulative lastV ks point'

/-- The fill loop `for key_, point in sorted(result.items()):
last_value.update(point); ...` over the ascending bucket list.
`last_value.update(point)` is `point ++ lastV` under first-match
lookup; the entries `setdefault` adds to `point` never reach
`last_value`. -/
def fillBuckets (cumulative : Bool) (combos : List K) :
    List (K × Nat) → List (B × List (K × Nat)) →
    Except Unit (List (B × List (K × Nat)))
  | _, [] => .ok []
  | lastV, (b, point) :: rest =>
    match fillCombos cumulative (point ++ lastV) combos point with
    | .error e => .error e
    | .ok point' =>
      match fillBuckets cumulative combos (point ++ lastV) rest with
      | .error e => .error e
      | .ok rest' => .ok ((b, point') :: rest')

/-- The `counts` mapping `message_count_over_time` returns (bucket label
→ combination key → count), or the `KeyError` escaping the fill loop. -/
def countOverTime (q : StatsQuery K B) (db : StatsDb) :
    Except Unit (List (B × List (K × Nat))) :=
  fillBuckets q.cumulative q.combos [] (resultList q db)

end Stats

/-- The constant `RANGE_LIMIT["daily"] = timedelta(weeks=24)`, in seconds. -/
def RANGE_LIMIT_daily : Int := 24 * 604800

/-- The range validation of `message_count_over_time`:
`if end_range - start_range > RANGE_LIMIT[sample]: raise ValueError`,
so a request is valid iff `end - start ≤ limit`. -/
def rangeWithinLimit (startEpoch endEpoch limit : Int) : Bool :=
  decide (endEpoch - startEpoch ≤ limit)

/-- The fan-out validation: `len(user_conditions) * len(topic_conditions)
* len(board_conditions) > 100` raises `ValueError`. -/
def tooManyCombinations (nUser nTopic nBoard : Nat) : Bool :=
  decide (100 < nUser * nTopic * nBoard)

/-- Modelled from the spec: SQLite's `strftime('%Y-%m-%d', date)` label
of a UTC epoch-second timestamp, represented as the day index (the
label is a strictly monotone function of it, so grouping and ordering
agree). -/
def dailyBucket (t : Int) : Int := t / 86400

/-- The daily granularity's native interval (one day of seconds),
used to step bucket boundaries from `start`. -/
def dailyIntervalSeconds : Int := 86400

/-! ## Helper lemmas on `Option.or` (the `ifnull` merge) -/

theorem or_self_left {α : Type} (a b : Option α) :
    a.or (a.or b) = a.or b := by
  cases a <;> rfl

theorem or_isSome_right {α : Type} {a b : Option α} (h : b.isSome) :
    (a.or b).isSome := by
  cases a <;> simp_all [Option.or]

/-! ## C4: idempotence of the message upsert -/

theorem mergeMessageRow_merge (new old : MessageRow) :
    mergeMessageRow new (mergeMessageRow new old) = mergeMessageRow new old := by
  simp [mergeMessageRow, or_self_left]

theorem mergeMessageRow_self (new : MessageRow) :
    mergeMessageRow new new = new := by
  simp [mergeMessageRow, Option.or_self]

/-- The record used by the second half of claim C4: only `mid` and
`content` set, everything else (including the `user` dict) absent. -/
def midContentOnly (mid : Int) (c : Option String) : MsgDict :=
  ⟨mid, none, none, none, c, none, none, none, none, none, none⟩

/-- C4: applying `update_msg` twice with the same record (at the same
clock reading) leaves the same stored `Messages` row as applying it
once; and applying a record with only `mid` and `content` set never
replaces a previously stored non-null `subject` with null (such a
record has neither `tid` nor `user`, so the run fails — at the `Topics`
key in this model, at latest at `update_user(None)`'s `TypeError` in
the source — before the `Messages` statement runs, leaving the row
untouched). -/
theorem updateMsg_idempotent_and_subject_preserved :
    (∀ (r : MsgDict) (now : String) (db : ScraperDB),
      ((updateMsg r now (updateMsg r now db).1).1).messages
        = ((updateMsg r now db).1).messages)
    ∧ (∀ (mid : Int) (c : Option String) (now : String) (db : ScraperDB)
        (old : MessageRow),
        db.messages mid = some old → old.subject.isSome →
        ∃ newRow,
          ((updateMsg (midContentOnly mid c) now db).1).messages mid = some newRow
          ∧ newRow.subject = old.subject) := by
  constructor
  · intro r now db
    rcases r with ⟨mid, subject, date, edited, content, icon, tid, topicName,
      bid, boardName, user⟩
    cases tid with
    | none => cases bid <;> rfl
    | some t =>
      cases user with
      | none => cases bid <;> rfl
      | some u =>
        cases huid : u.uid with
        | none => cases bid <;> simp [updateMsg, updateUser, huid]
        | some uid =>
          cases bid <;>
            · funext k
              by_cases hk : k = mid <;>
                simp [updateMsg, updateUser, huid, hk,
                  mergeMessageRow_merge, mergeMessageRow_self]
              <;> cases hdb : db.messages mid <;>
                simp [hdb, mergeMessageRow_merge, mergeMessageRow_self]
  · intro mid c now db old hdb _
    exact ⟨old, by simp [updateMsg, midContentOnly, hdb], rfl⟩

/-- Witness for C4 at a concrete store: a row with subject `"s"` keeps
it when a `{mid, content}`-only record is applied. -/
theorem updateMsg_idempotent_and_subject_preserved_witness :
    ∃ newRow,
      ((updateMsg (midContentOnly 1 (some "c")) "now"
          ⟨fun k => if k = 1 then
              some ⟨some "s", none, none, none, none, none, none, none⟩
            else none,
           fun _ => none, fun _ => none, fun _ => none⟩).1).messages 1
        = some newRow
      ∧ newRow.subject = some "s" :=
  updateMsg_idempotent_and_subject_preserved.2 1 (some "c") "now"
    ⟨fun k => if k = 1 then
        some ⟨some "s", none, none, none, none, none, none, none⟩
      else none,
     fun _ => none, fun _ => none, fun _ => none⟩
    ⟨some "s", none, none, none, none, none, none, none⟩ (by simp) rfl

/-! ## C7: which upserts preserve known fields -/

/-- Field-wise "no non-null value became null" for a `Users` row. -/
def userRowPreserved (old new : UserRow) : Prop :=
  (old.name.isSome → new.name.isSome) ∧
  (old.avatar.isSome → new.avatar.isSome) ∧
  (old.userGroup.isSome → new.userGroup.isSome) ∧
  (old.posts.isSome → new.posts.isSome) ∧
  (old.signature.isSome → new.signature.isSome) ∧
  (old.email.isSome → new.email.isSome) ∧
  (old.blurb.isSome → new.blurb.isSome) ∧
  (old.location.isSome → new.location.isSome) ∧
  (old.realName.isSome → new.realName.isSome) ∧
  (old.social.isSome → new.social.isSome) ∧
  (old.website.isSome → new.website.isSome) ∧
  (old.gender.isSome → new.gender.isSome) ∧
  (old.lastScraped.isSome → new.lastScraped.isSome)

/-- Field-wise "no non-null value became null" for a `Messages` row. -/
def messageRowPreserved (old new : MessageRow) : Prop :=
  (old.subject.isSome → new.subject.isSome) ∧
  (old.date.isSome → new.date.isSome) ∧
  (old.edited.isSome → new.edited.isSome) ∧
  (old.content.isSome → new.content.isSome) ∧
  (old.icon.isSome → new.icon.isSome) ∧
  (old.user.isSome → new.user.isSome) ∧
  (old.tid.isSome → new.tid.isSome) ∧
  (old.lastScraped.isSome → new.lastScraped.isSome)

theorem userRowPreserved_refl (old : UserRow) : userRowPreserved old old := by
  simp [userRowPreserved]

theorem messageRowPreserved_refl (old : MessageRow) :
    messageRowPreserved old old := by
  simp [messageRowPreserved]

theorem userRowPreserved_merge (u : UserDict) (old : UserRow) :
    userRowPreserved old (mergeUserRow u old) := by
  refine ⟨?_, ?_, ?_, ?_, ?_, ?_, ?_, ?_, ?_, ?_, ?_, ?_, ?_⟩ <;>
    exact fun h => or_isSome_right h

theorem messageRowPreserved_merge (new old : MessageRow) :
    messageRowPreserved old (mergeMessageRow new old) := by
  refine ⟨?_, ?_, ?_, ?_, ?_, ?_, ?_, ?_⟩ <;> exact fun h => or_isSome_right h

/-- The `update_user` upsert preserves known fields of a stored row. -/
theorem updateUser_preserves (u : UserDict) (tbl : Int → Option UserRow)
    (uid : Int) (old : UserRow) (h : tbl uid = some old) :
    ∃ new, (updateUser u tbl).1 uid = some new ∧ userRowPreserved old new := by
  cases huid : u.uid with
  | none => exact ⟨old, by simp [updateUser, huid, h], userRowPreserved_refl old⟩
  | some uid' =>
    by_cases hk : uid = uid'
    · subst hk
      exact ⟨mergeUserRow u old, by simp [updateUser, huid, h],
        userRowPreserved_merge u old⟩
    · exact ⟨old, by simp [updateUser, huid, hk, h], userRowPreserved_refl old⟩

/-- The `Messages` upsert of `update_msg` preserves known fields of a
stored row (on every execution path, including the failing ones). -/
theorem updateMsg_preserves_messages (r : MsgDict) (now : String)
    (db : ScraperDB) (mid : Int) (old : MessageRow)
    (h : db.messages mid = some old) :
    ∃ new, ((updateMsg r now db).1).messages mid = some new
      ∧ messageRowPreserved old new := by
  rcases r with ⟨rmid, subject, date, edited, content, icon, tid, topicName,
    bid, boardName, user⟩
  cases tid with
  | none =>
    exact ⟨old, by cases bid <;> simpa [updateMsg] using h,
      messageRowPreserved_refl old⟩
  | some t =>
    cases user with
    | none =>
      exact ⟨old, by cases bid <;> simpa [updateMsg] using h,
        messageRowPreserved_refl old⟩
    | some u =>
      cases huid : u.uid with
      | none =>
        exact ⟨old, by cases bid <;> simpa [updateMsg, updateUser, huid] using h,
          messageRowPreserved_refl old⟩
      | some uid =>
        by_cases hk : mid = rmid
        · subst hk
          refine ⟨mergeMessageRow
              ⟨subject, date, edited, content, icon, some uid, some t, some now⟩
              old, ?_, messageRowPreserved_merge _ old⟩
          cases bid <;> simp [updateMsg, updateUser, huid, h]
        · exact ⟨old,
            by cases bid <;> simp [updateMsg, updateUser, huid, hk, h],
            messageRowPreserved_refl old⟩

/-- A store holding one fully resolved topic `(tid 1, name "General",
board 2)`, used to refute claim C7. -/
def topicsDbC7 : ScraperDB :=
  ⟨fun _ => none, fun _ => none,
   fun t => if t = 1 then some ⟨some "General", some 2⟩ else none,
   fun _ => none⟩

/-- A scan-phase style record for topic 1 with no resolved topic name
and no board context. -/
def nullingRecordC7 : MsgDict :=
  ⟨10, none, none, none, some "hi", none, some 1, none, none, none, none⟩

/-- Counterexample to C7 as stated: the `Topics` write of `update_msg`
is an unconditional `insert or replace`, so a record that knows only
the topic id overwrites the stored non-null `topic_name` and `bid` with
null. -/
theorem upsert_nulls_resolved_topic :
    topicsDbC7.topics 1 = some ⟨some "General", some 2⟩
    ∧ ((updateMsg nullingRecordC7 "now" topicsDbC7).1).topics 1
        = some ⟨none, none⟩ :=
  ⟨rfl, rfl⟩

/-- C7 amended: the `Messages` and `Users` upserts preserve every
non-null stored field, but the `Topics` and `Boards` writes are
unconditional `insert or replace`, leaving exactly the incoming
(possibly null) values. -/
theorem upsert_preservation_amended :
    (∀ (u : UserDict) (tbl : Int → Option UserRow) (uid : Int) (old : UserRow),
      tbl uid = some old →
      ∃ new, (updateUser u tbl).1 uid = some new ∧ userRowPreserved old new)
    ∧ (∀ (r : MsgDict) (now : String) (db : ScraperDB) (mid : Int)
        (old : MessageRow), db.messages mid = some old →
        ∃ new, ((updateMsg r now db).1).messages mid = some new
          ∧ messageRowPreserved old new)
    ∧ (∀ (r : MsgDict) (now : String) (db : ScraperDB) (t : Int),
        r.tid = some t →
        ((updateMsg r now db).1).topics t = some ⟨r.topicName, r.bid⟩)
    ∧ (∀ (r : MsgDict) (now : String) (db : ScraperDB) (b : Int),
        r.bid = some b →
        ((updateMsg r now db).1).boards b = some r.boardName) := by
  refine ⟨updateUser_preserves, updateMsg_preserves_messages, ?_, ?_⟩
  · intro r now db t ht
    rcases r with ⟨rmid, subject, date, edited, content, icon, tid, topicName,
      bid, boardName, user⟩
    cases tid with
    | none => cases ht
    | some t' =>
      obtain rfl : t' = t := by cases ht; rfl
      cases user with
      | none => cases bid <;> simp [updateMsg]
      | some u =>
        cases huid : u.uid <;> cases bid <;> simp [updateMsg, updateUser, huid]
  · intro r now db b hb
    rcases r with ⟨rmid, subject, date, edited, content, icon, tid, topicName,
      bid, boardName, user⟩
    cases bid with
    | none => cases hb
    | some b' =>
      obtain rfl : b' = b := by cases hb; rfl
      cases tid with
      | none => simp [updateMsg]
      | some t =>
        cases user with
        | none => simp [updateMsg]
        | some u => cases huid : u.uid <;> simp [updateMsg, updateUser, huid]

/-- Witness for the amended C7 at a concrete store: the subject-bearing
row of `topicsDbC7`-like data survives an upsert. -/
theorem upsert_preservation_amended_witness :
    ∃ new, ((updateMsg nullingRecordC7 "now"
        ⟨fun k => if k = 10 then
            some ⟨some "s", none, none, none, none, none, none, none⟩
          else none,
         fun _ => none, fun _ => none, fun _ => none⟩).1).messages 10
      = some new ∧ messageRowPreserved
        ⟨some "s", none, none, none, none, none, none, none⟩ new :=
  upsert_preservation_amended.2.1 nullingRecordC7 "now"
    ⟨fun k => if k = 10 then
        some ⟨some "s", none, none, none, none, none, none, none⟩
      else none,
     fun _ => none, fun _ => none, fun _ => none⟩ 10
    ⟨some "s", none, none, none, none, none, none, none⟩ (by simp)

/-! ## C3: scan-phase resumability -/

/-- The upsert `update_msg` never deletes a `Messages` row. -/
theorem updateMsg_messages_mono (r : MsgDict) (now : String) (db : ScraperDB)
    (k : Int) (h : (db.messages k).isSome) :
    (((updateMsg r now db).1).messages k).isSome := by
  rcases hdb : db.messages k with _ | old
  · rw [hdb] at h; cases h
  · rcases updateMsg_preserves_messages r now db k old hdb with ⟨new, hnew, _⟩
    rw [hnew]; rfl

/-- The per-page store loop never deletes a `Messages` row. -/
theorem storePage_messages_mono (env : ScanEnv) (reqMid : Int) (now : String)
    (msgs : List MsgDict) :
    ∀ (db : ScraperDB) (k : Int), (db.messages k).isSome →
      (((storePage env reqMid now db msgs).1).messages k).isSome := by
  induction msgs with
  | nil => intro db k h; exact h
  | cons m rest ih =>
    intro db k h
    rw [storePage]
    rcases hok : (updateMsg (if GREEDY_SCRAPE || m.mid = reqMid then getBbc env m
        else { m with content := none }) now db).2 with _ | _
    · simp only [hok, if_neg Bool.false_ne_true]
      exact updateMsg_messages_mono _ now db k h
    · simp only [hok, if_pos rfl]
      exact ih _ k (updateMsg_messages_mono _ now db k h)

theorem scanPhase_cons_skip {env : ScanEnv} {now : String} {db : ScraperDB}
    {mid : Int} {rest : List Int} (hskip : (db.messages mid).isSome = true) :
    scanPhase env now db (mid :: rest) = scanPhase env now db rest := by
  rw [scanPhase, hskip]; rfl

theorem scanPhase_cons_notfound {env : ScanEnv} {now : String}
    {db : ScraperDB} {mid : Int} {rest : List Int}
    (hskip : (db.messages mid).isSome = false) (hpage : env.page mid = none) :
    scanPhase env now db (mid :: rest) = scanPhase env now db rest := by
  rw [scanPhase, hskip, hpage]; rfl

theorem scanPhase_cons_store {env : ScanEnv} {now : String} {db : ScraperDB}
    {mid : Int} {rest : List Int} {msgs : List MsgDict}
    (hskip : (db.messages mid).isSome = false)
    (hpage : env.page mid = some msgs) :
    scanPhase env now db (mid :: rest)
      = (if (storePage env mid now db msgs).2 then
          ((scanPhase env now (storePage env mid now db msgs).1 rest).1,
           mid :: (scanPhase env now (storePage env mid now db msgs).1 rest).2.1,
           (scanPhase env now (storePage env mid now db msgs).1 rest).2.2)
         else ((storePage env mid now db msgs).1, [mid], false)) := by
  rw [scanPhase, hskip, hpage]; rfl

/-- Every id whose page the scan phase fetches had no stored row at the
moment of its `select content from Messages where mid=?` check; since
rows are never deleted, it had no stored row when the phase began. -/
theorem scanPhase_fetched_absent (env : ScanEnv) (now : String) :
    ∀ (mids : List Int) (db : ScraperDB) (mid : Int),
      mid ∈ (scanPhase env now db mids).2.1 → db.messages mid = none := by
  intro mids
  induction mids with
  | nil => intro db mid h; cases h
  | cons mid' rest ih =>
    intro db mid h
    rcases hskip : (db.messages mid').isSome with _ | _
    · rcases hpage : env.page mid' with _ | msgs
      · rw [scanPhase_cons_notfound hskip hpage] at h
        exact ih db mid h
      · rw [scanPhase_cons_store hskip hpage] at h
        rcases hok : (storePage env mid' now db msgs).2 with _ | _
        · rw [hok] at h
          simp only [if_neg Bool.false_ne_true] at h
          rcases List.mem_singleton.mp h with rfl
          exact Option.not_isSome_iff_eq_none.mp (by rw [hskip]; exact fun x => by cases x)
        · rw [hok] at h
          simp only [if_pos rfl] at h
          rcases List.mem_cons.mp h with rfl | hmem
          · exact Option.not_isSome_iff_eq_none.mp (by rw [hskip]; exact fun x => by cases x)
          · have habs := ih (storePage env mid' now db msgs).1 mid hmem
            rcases hdb : db.messages mid with _ | v
            · rfl
            · have := storePage_messages_mono env mid' now msgs db mid
                (by rw [hdb]; rfl)
              rw [habs] at this; cases this
    · rw [scanPhase_cons_skip hskip] at h
      exact ih db mid h

/-- C3: a (re-)run of the scan phase over any id sequence fetches the
containing page only for ids whose stored content is null or whose row
is absent in the starting store, and every id already present with
non-null content is skipped. -/
theorem scan_fetches_only_unresolved (env : ScanEnv) (now : String)
    (db0 : ScraperDB) (mids : List Int) :
    (∀ mid ∈ (scanPhase env now db0 mids).2.1,
        db0.messages mid = none
        ∨ ∃ row, db0.messages mid = some row ∧ row.content = none)
    ∧ (∀ (mid : Int) (row : MessageRow), db0.messages mid = some row →
        row.content.isSome → mid ∉ (scanPhase env now db0 mids).2.1) := by
  constructor
  · intro mid h
    exact Or.inl (scanPhase_fetched_absent env now mids db0 mid h)
  · intro mid row hrow _ hmem
    have := scanPhase_fetched_absent env now mids db0 mid hmem
    rw [hrow] at this; cases this

/-- A store for the C3 witness: id 6 already has non-null content. -/
def scanDbC3 : ScraperDB :=
  ⟨fun k => if k = 6 then
      some ⟨some "s", some "d", none, some "body", none, some 9, some 1, none⟩
    else none,
   fun _ => none, fun _ => none, fun _ => none⟩

/-- The forum client for the C3 witness: the page for id 5 holds one
complete record. -/
def scanEnvC3 : ScanEnv :=
  ⟨fun k => if k = 5 then
      some [⟨5, some "s", some "d", none, none, none, some 1, some "T",
        some 2, some "B",
        some ⟨some 9, some "u", none, none, none, none, none, none, none,
          none, none, none, none, none⟩⟩]
    else none,
   fun _ => some "bbc"⟩

/-- Witness for C3: running the scan over `[5, 6]` fetches id 5 (whose
row is absent) and skips id 6 (present with non-null content). -/
theorem scan_fetches_only_unresolved_witness :
    (scanDbC3.messages 5 = none
      ∨ ∃ row, scanDbC3.messages 5 = some row ∧ row.content = none)
    ∧ (6 : Int) ∉ (scanPhase scanEnvC3 "now" scanDbC3 [5, 6]).2.1
    ∧ (5 : Int) ∈ (scanPhase scanEnvC3 "now" scanDbC3 [5, 6]).2.1 :=
  ⟨(scan_fetches_only_unresolved scanEnvC3 "now" scanDbC3 [5, 6]).1 5
      (by rw [show (scanPhase scanEnvC3 "now" scanDbC3 [5, 6]).2.1 = [5] from rfl]
          exact List.mem_singleton.mpr rfl),
   (scan_fetches_only_unresolved scanEnvC3 "now" scanDbC3 [5, 6]).2 6
      ⟨some "s", some "d", none, some "body", none, some 9, some 1, none⟩
      (by simp [scanDbC3]) rfl,
   by rw [show (scanPhase scanEnvC3 "now" scanDbC3 [5, 6]).2.1 = [5] from rfl]
      exact List.mem_singleton.mpr rfl⟩

/-! ## C5: discovery-phase termination -/

/-- Counterexample to C5 as stated: with high watermark 4 and a listing
whose first entry is id 3, the discovery phase raw-content-scrapes and
stores id 3 — an id at/below the watermark — before its watermark check
fires. -/
theorem discovery_processes_watermark_id :
    discoveryProcessed 4 [[3]] = [3]
    ∧ (3 : Int) ∈ discoveryProcessed 4 [[3]] ∧ (3 : Int) ≤ 4 :=
  ⟨rfl, by decide, by decide⟩

/-- The spec-side description of the amended C5: the listing prefix up
to and including the first id at or below the watermark. -/
def takeThroughWatermark (lastMid : Int) : List Int → List Int
  | [] => []
  | mid :: rest =>
    if mid ≤ lastMid then [mid]
    else mid :: takeThroughWatermark lastMid rest

theorem takeThroughWatermark_append (lastMid : Int) (page l : List Int) :
    takeThroughWatermark lastMid (page ++ l)
      = (if (discoveryPage lastMid page).2 then (discoveryPage lastMid page).1
         else (discoveryPage lastMid page).1 ++ takeThroughWatermark lastMid l) := by
  induction page with
  | nil => simp [discoveryPage]
  | cons mid rest ih =>
    by_cases hm : mid ≤ lastMid
    · simp [takeThroughWatermark, discoveryPage, hm]
    · simp only [List.cons_append, takeThroughWatermark, discoveryPage,
        if_neg hm, ih]
      cases h2 : (discoveryPage lastMid rest).2 <;> simp [h2, ih]

theorem discoveryPhase_eq_takeThroughWatermark (lastMid : Int) :
    ∀ pages : List (List Int),
      discoveryPhase lastMid pages = takeThroughWatermark lastMid pages.flatten := by
  intro pages
  induction pages with
  | nil => rfl
  | cons page rest ih =>
    rw [discoveryPhase, List.flatten_cons, takeThroughWatermark_append, ih]

theorem takeThroughWatermark_dropLast_gt (lastMid : Int) :
    ∀ l : List Int, ∀ mid ∈ (takeThroughWatermark lastMid l).dropLast,
      lastMid < mid := by
  intro l
  induction l with
  | nil => intro mid h; cases h
  | cons m rest ih =>
    intro mid h
    by_cases hm : m ≤ lastMid
    · rw [takeThroughWatermark, if_pos hm] at h; cases h
    · rw [takeThroughWatermark, if_neg hm] at h
      rcases hrest : takeThroughWatermark lastMid rest with _ | ⟨x, xs⟩
      · rw [hrest] at h; cases h
      · rw [hrest, List.dropLast_cons₂] at h
        rcases List.mem_cons.mp h with rfl | hmem
        · exact lt_of_not_le hm
        · exact ih mid (by rw [hrest]; exact hmem)

/-- C5 amended: the discovery phase processes exactly the prefix of the
(at most ten pages of the) recent listing up to and *including* the
first id at or below the high watermark: that one id is still fetched
and stored, every other processed id exceeds the watermark, and nothing
after the stopping point is touched. -/
theorem discovery_stops_after_watermark (lastMid : Int)
    (pages : List (List Int)) :
    discoveryProcessed lastMid pages
      = takeThroughWatermark lastMid (pages.take 10).flatten
    ∧ ∀ mid ∈ (discoveryProcessed lastMid pages).dropLast, lastMid < mid := by
  refine ⟨discoveryPhase_eq_takeThroughWatermark lastMid _, ?_⟩
  rw [discoveryProcessed, discoveryPhase_eq_takeThroughWatermark lastMid]
  exact takeThroughWatermark_dropLast_gt lastMid _

/-- Witness for the amended C5: with watermark 4 and listing pages
`[9, 7, 3, 8]`, `[2]`, exactly `[9, 7, 3]` is processed — the stopping
id 3 included, id 8 and the second page untouched — and every processed
id before the stopping one exceeds the watermark. -/
theorem discovery_stops_after_watermark_witness :
    discoveryProcessed 4 [[9, 7, 3, 8], [2]] = [9, 7, 3]
    ∧ ∀ mid ∈ (discoveryProcessed 4 [[9, 7, 3, 8], [2]]).dropLast,
        (4 : Int) < mid :=
  ⟨rfl, (discovery_stops_after_watermark 4 [[9, 7, 3, 8], [2]]).2⟩

/-! ## C6: error statuses of the statistics API -/

/-- C6: every validation failure of the statistics endpoint is answered
with status 400, but so is a backing-store (`sqlite3.Error`) failure —
`handle_422_exceptions` passes 400 to `handle_exception`, so the store
error is *not* the distinct 422-equivalent response the claim (and the
handler's own name) describe. -/
theorem statsFailureStatus_store_not_distinct :
    statsFailureStatus .badSample = 400
    ∧ statsFailureStatus .rangeExceedsLimit = 400
    ∧ statsFailureStatus .tooManyConditions = 400
    ∧ statsFailureStatus .malformedDate = 400
    ∧ statsFailureStatus .storeError = 400
    ∧ statsFailureStatus .storeError ≠ 422
    ∧ statsFailureStatus .storeError = statsFailureStatus .badSample := by
  refine ⟨rfl, rfl, rfl, rfl, rfl, ?_, rfl⟩
  decide

/-! ## C9: the review-phase priority key -/

/-- C9: the review query's operative ordering key, evaluated at the
failing input.  SQLite resolves the bare `order by priority` to the
outer select's output alias, so the key of every candidate row is the
fresh unweighted draw `62 - log2(abs(random() / 2))`: it does not
depend on the dead weighted subquery column at all, equals 62 at
`random() = 2` even for a candidate whose message is one `half_time`
old, and differs from the claim's weighted key `62 / 11` (drawn value
divided by `multiplier / 2^(-age/half_time) + 1` at the configuration
constants) — so stored-post candidates are not assigned the claimed
recency-weighted priority and the sample carries no recency bias. -/
theorem review_order_key_ignores_age :
    (∀ (rand : ℝ) (w₁ w₂ : Option ℝ),
      operativePriority rand w₁ = operativePriority rand w₂)
    ∧ operativePriority 2
        (some (storedPriority 2 HALF_TIME_SECONDS HALF_TIME_SECONDS
          reviewMultiplierParam)) = 62
    ∧ specClaimedPriorityKey 2 HALF_TIME_SECONDS HALF_TIME_SECONDS RECENT_POWER
        = 62 / 11
    ∧ operativePriority 2
        (some (storedPriority 2 HALF_TIME_SECONDS HALF_TIME_SECONDS
          reviewMultiplierParam))
      ≠ specClaimedPriorityKey 2 HALF_TIME_SECONDS HALF_TIME_SECONDS
          RECENT_POWER := by
  have habs : |(2 : ℝ) / 2| = 1 := by norm_num
  have hexp : -HALF_TIME_SECONDS / HALF_TIME_SECONDS = (-1 : ℝ) := by
    rw [HALF_TIME_SECONDS]; norm_num
  have hpow : (2 : ℝ) ^ (-HALF_TIME_SECONDS / HALF_TIME_SECONDS) = 1 / 2 := by
    rw [hexp, Real.rpow_neg_one]; norm_num
  have hlog : Real.logb 2 |(2 : ℝ) / 2| = 0 := by rw [habs, Real.logb_one]
  have h1 : operativePriority 2
      (some (storedPriority 2 HALF_TIME_SECONDS HALF_TIME_SECONDS
        reviewMultiplierParam)) = 62 := by
    rw [operativePriority, seriesPriority, hlog]; ring
  have h2 : specClaimedPriorityKey 2 HALF_TIME_SECONDS HALF_TIME_SECONDS
      RECENT_POWER = 62 / 11 := by
    rw [specClaimedPriorityKey, seriesPriority, hlog, hpow, RECENT_POWER]
    norm_num
  refine ⟨fun _ _ _ => rfl, h1, h2, ?_⟩
  rw [h1, h2]; norm_num

/-! ## Association-list lookup lemmas for the fill loop -/

section StatsProofs

variable {K B : Type} [DecidableEq K] [LinearOrder B]

theorem alookup_append (xs ys : List (K × Nat)) (k : K) :
    alookup (xs ++ ys) k = (alookup xs k).or (alookup ys k) := by
  induction xs with
  | nil => rfl
  | cons p rest ih =>
    rcases p with ⟨k', v⟩
    by_cases hk : k = k' <;> simp [alookup, hk, ih]

theorem alookup_singleton (k0 : K) (d : Nat) (k : K) :
    alookup [(k0, d)] k = if k = k0 then some d else none := rfl

theorem alookup_filter_map (l : List K) (p : K → Bool) (f : K → Nat) (k : K) :
    alookup ((l.filter p).map (fun x => (x, f x))) k
      = if k ∈ l ∧ p k then some (f k) else none := by
  induction l with
  | nil => simp [alookup]
  | cons x xs ih =>
    by_cases hx : p x
    · rw [List.filter_cons_of_pos hx, List.map_cons]
      by_cases hk : k = x
      · subst hk; simp [alookup, hx]
      · simp only [alookup, if_neg hk, ih, List.mem_cons]
        by_cases hmem : k ∈ xs
        · simp [hmem]
        · simp [hmem, hk]
    · rw [List.filter_cons_of_neg hx, ih]
      by_cases hk : k = x
      · subst hk
        simp [hx]
      · simp [List.mem_cons, hk]

/-- What the raw point of a bucket holds: an entry for `k` iff `k` is a
combination whose query produced group `b`, with that group's count. -/
theorem alookup_pointAt (q : StatsQuery K B) (db : StatsDb) (b : B) (k : K) :
    alookup (pointAt q db b) k
      = if k ∈ q.combos ∧ b ∈ labelsOf q db k
        then some (countAt q db k b) else none := by
  rw [pointAt, alookup_filter_map]
  by_cases h : k ∈ q.combos ∧ b ∈ labelsOf q db k
  · rcases h with ⟨h1, h2⟩; simp [h1, h2]
  · rw [if_neg h, if_neg]
    intro hc
    exact h ⟨hc.1, by simpa using hc.2⟩

theorem setdefaultFill_of_some {lastV point : List (K × Nat)} {k0 : K}
    {d : Nat} (hl0 : alookup lastV k0 = some d) :
    setdefaultFill true lastV point k0
      = .ok (if (alookup point k0).isSome then point else point ++ [(k0, d)]) := by
  rw [setdefaultFill, if_pos rfl, hl0]

theorem setdefaultFill_of_none {lastV point : List (K × Nat)} {k0 : K}
    (hl0 : alookup lastV k0 = none) :
    setdefaultFill true lastV point k0 = .error () := by
  rw [setdefaultFill, if_pos rfl, hl0]

theorem fillCombos_cons_ok {lastV point point₁ : List (K × Nat)} {k0 : K}
    {ks : List K} (hsd : setdefaultFill true lastV point k0 = .ok point₁) :
    fillCombos true lastV (k0 :: ks) point = fillCombos true lastV ks point₁ := by
  rw [fillCombos, hsd]

theorem fillCombos_cons_err {lastV point : List (K × Nat)} {k0 : K}
    {ks : List K} (hsd : setdefaultFill true lastV point k0 = .error ()) :
    fillCombos true lastV (k0 :: ks) point = .error () := by
  rw [fillCombos, hsd]

/-- In cumulative mode, a run of `setdefault`s that did not raise
`KeyError` found every processed key in `last_value`. -/
theorem fillCombos_ok_lastV_isSome {lastV : List (K × Nat)} :
    ∀ {ks : List K} {point point' : List (K × Nat)},
      fillCombos true lastV ks point = .ok point' →
      ∀ k ∈ ks, (alookup lastV k).isSome := by
  intro ks
  induction ks with
  | nil => intro point point' h k hk; cases hk
  | cons k0 ks ih =>
    intro point point' h k hk
    cases hl0 : alookup lastV k0 with
    | none => rw [fillCombos_cons_err (setdefaultFill_of_none hl0)] at h; cases h
    | some d =>
      rw [fillCombos_cons_ok (setdefaultFill_of_some hl0)] at h
      rcases List.mem_cons.mp hk with rfl | hmem
      · rw [hl0]; rfl
      · exact ih h k hmem

/-- The lookups of a filled point: an existing entry is kept, a missing
combination key receives its `last_value` entry. -/
theorem fillCombos_ok_alookup {lastV : List (K × Nat)} :
    ∀ {ks : List K} {point point' : List (K × Nat)},
      fillCombos true lastV ks point = .ok point' →
      ∀ k, alookup point' k
        = (alookup point k).or (if k ∈ ks then alookup lastV k else none) := by
  intro ks
  induction ks with
  | nil =>
    intro point point' h k
    cases h
    simp [Option.or_none]
  | cons k0 ks ih =>
    intro point point' h k
    cases hl0 : alookup lastV k0 with
    | none => rw [fillCombos_cons_err (setdefaultFill_of_none hl0)] at h; cases h
    | some d =>
      rw [fillCombos_cons_ok (setdefaultFill_of_some hl0)] at h
      by_cases hp0 : (alookup point k0).isSome
      · rw [if_pos hp0] at h
        rw [ih h k]
        by_cases hk0 : k = k0
        · subst hk0
          rcases hpv : alookup point k with _ | v
          · rw [hpv] at hp0; cases hp0
          · simp [List.mem_cons]
        · simp [List.mem_cons, hk0]
      · rw [if_neg hp0] at h
        rw [ih h k, alookup_append, alookup_singleton]
        by_cases hk0 : k = k0
        · subst hk0
          have hpn : alookup point k = none :=
            Option.not_isSome_iff_eq_none.mp hp0
          by_cases hmem : k ∈ ks <;>
            simp [hpn, hmem, List.mem_cons, hl0, Option.or_self]
        · by_cases hmem : k ∈ ks <;>
            simp [hk0, hmem, List.mem_cons, Option.or_none]

/-- The fill loop keeps the bucket keys of `result` unchanged. -/
theorem fillBuckets_keys (cumulative : Bool) (combos : List K) :
    ∀ (bs : List (B × List (K × Nat))) (lastV : List (K × Nat))
      (out : List (B × List (K × Nat))),
      fillBuckets cumulative combos lastV bs = .ok out →
      out.map Prod.fst = bs.map Prod.fst := by
  intro bs
  induction bs with
  | nil => intro lastV out h; cases h; rfl
  | cons bp rest ih =>
    intro lastV out h
    rcases bp with ⟨b, point⟩
    rw [fillBuckets] at h
    cases hfc : fillCombos cumulative (point ++ lastV) combos point with
    | error e => rw [hfc] at h; cases h
    | ok point' =>
      rw [hfc] at h
      cases hfb : fillBuckets cumulative combos (point ++ lastV) rest with
      | error e => rw [hfb] at h; cases h
      | ok rest' =>
        rw [hfb] at h
        cases h
        simp [ih _ _ hfb]

theorem fmt_mem_labelsOf {q : StatsQuery K B} {db : StatsDb} {k : K}
    {m : SMsg} (hm : m ∈ qRows q db k) :
    q.fmt m.dateEpoch ∈ labelsOf q db k := by
  rw [labelsOf, List.mem_dedup]
  exact List.mem_map_of_mem _ hm

theorem fmt_mem_allBucketLabels {q : StatsQuery K B} {db : StatsDb} {k : K}
    {m : SMsg} (hk : k ∈ q.combos) (hm : m ∈ qRows q db k) :
    q.fmt m.dateEpoch ∈ allBucketLabels q db := by
  rw [allBucketLabels, List.mem_insertionSort, List.mem_dedup, List.mem_flatMap]
  exact ⟨k, hk, fmt_mem_labelsOf hm⟩

theorem allBucketLabels_pairwise_lt (q : StatsQuery K B) (db : StatsDb) :
    List.Pairwise (· < ·) (allBucketLabels q db) := by
  have hsorted : List.Sorted (· ≤ ·) (allBucketLabels q db) :=
    List.sorted_insertionSort _ _
  have hnodup : (allBucketLabels q db).Nodup :=
    (List.perm_insertionSort _ _).nodup_iff.mpr (List.nodup_dedup _)
  exact hsorted.lt_of_le hnodup

/-- The heart of the cumulative analysis: when the fill loop runs to
completion over the (strictly ascending, gap-characterised) bucket
list, every combination key of every output bucket `b` carries exactly
the number of that combination's rows with label at most `b`. -/
theorem fillBuckets_values (q : StatsQuery K B) (db : StatsDb)
    (hc : q.cumulative = true) :
    ∀ (bs : List B) (lastV : List (K × Nat)) (out : List (B × List (K × Nat))),
      List.Pairwise (· < ·) bs →
      (∀ k ∈ q.combos, ∀ m ∈ qRows q db k,
        q.fmt m.dateEpoch ∈ bs ∨ ∀ b ∈ bs, q.fmt m.dateEpoch < b) →
      (∀ k ∈ q.combos,
        (∀ v, alookup lastV k = some v →
          v = (qRows q db k).countP
                (fun m => bs.all (fun b => decide (q.fmt m.dateEpoch < b))))
        ∧ (alookup lastV k = none →
          (qRows q db k).countP
            (fun m => bs.all (fun b => decide (q.fmt m.dateEpoch < b))) = 0)) →
      fillBuckets true q.combos lastV (bs.map (fun b => (b, pointAt q db b)))
        = .ok out →
      ∀ bp ∈ out, ∀ k ∈ q.combos,
        alookup bp.2 k
          = some ((qRows q db k).countP
              (fun m => decide (q.fmt m.dateEpoch ≤ bp.1))) := by
  intro bs
  induction bs with
  | nil =>
    intro lastV out _ _ _ h bp hbp
    cases h; cases hbp
  | cons b rest ih =>
    intro lastV out hpw hgap hlast h bp hbp k hk
    have hhead : ∀ b' ∈ rest, b < b' := (List.pairwise_cons.mp hpw).1
    have hpw' : List.Pairwise (· < ·) rest := (List.pairwise_cons.mp hpw).2
    rw [List.map_cons, fillBuckets] at h
    cases hfc : fillCombos true (pointAt q db b ++ lastV) q.combos
        (pointAt q db b) with
    | error e => rw [hfc] at h; cases h
    | ok point' =>
      rw [hfc] at h
      cases hfb : fillBuckets true q.combos (pointAt q db b ++ lastV)
          (rest.map (fun b => (b, pointAt q db b))) with
      | error e => rw [hfb] at h; cases h
      | ok rest' =>
        rw [hfb] at h
        cases h
        -- the label of k's rows is never strictly between the processed
        -- buckets and `b`, so "below all of b :: rest" ↔ "at most b" up
        -- to the presence of b among k's labels
        rcases List.mem_cons.mp hbp with hbp1 | hmem
        · -- the head bucket
          rw [hbp1]
          have heq := fillCombos_ok_alookup hfc k
          rw [if_pos hk, alookup_append, or_self_left] at heq
          by_cases hb : b ∈ labelsOf q db k
          · rw [alookup_pointAt, if_pos ⟨hk, hb⟩] at heq
            rw [heq]
            have : countAt q db k b
                = (qRows q db k).countP
                    (fun m => decide (q.fmt m.dateEpoch ≤ b)) := by
              rw [countAt, hc, if_pos rfl]
            rw [← this]
            rcases hpv : alookup lastV k with _ | v <;> simp [Option.or]
          · rw [alookup_pointAt, if_neg (fun hcon => hb hcon.2),
              Option.none_or] at heq
            have hsome := fillCombos_ok_lastV_isSome hfc k hk
            rw [alookup_append, alookup_pointAt,
              if_neg (fun hcon => hb hcon.2), Option.none_or] at hsome
            rcases hv : alookup lastV k with _ | v
            · rw [hv] at hsome; cases hsome
            · have hval := (hlast k hk).1 v hv
              rw [heq, hv, hval]
              congr 1
              apply List.countP_congr
              intro m hm
              simp only [List.all_eq_true, List.mem_cons, decide_eq_true_eq]
              constructor
              · intro hall
                exact le_of_lt (hall b (Or.inl rfl))
              · intro hle b' hb'
                have hltb : q.fmt m.dateEpoch < b := by
                  rcases lt_or_eq_of_le hle with hlt | heqb
                  · exact hlt
                  · exact absurd (heqb ▸ fmt_mem_labelsOf hm) hb
                rcases hb' with rfl | hb'
                · exact hltb
                · exact lt_trans hltb (hhead b' hb')
        · -- a later bucket: apply the induction hypothesis
          refine ih (pointAt q db b ++ lastV) rest' hpw' ?_ ?_ hfb bp hmem k hk
          · intro k' hk' m hm
            rcases hgap k' hk' m hm with hmem' | halllt
            · rcases List.mem_cons.mp hmem' with heqb | hmem''
              · exact Or.inr fun b' hb' => heqb ▸ hhead b' hb'
              · exact Or.inl hmem''
            · exact Or.inr fun b' hb' =>
                halllt b' (List.mem_cons_of_mem _ hb')
          · intro k' hk'
            have hgapk : ∀ m ∈ qRows q db k',
                (rest.all (fun b' => decide (q.fmt m.dateEpoch < b'))) = true →
                q.fmt m.dateEpoch ≤ b := by
              intro m hm hall
              simp only [List.all_eq_true, decide_eq_true_eq] at hall
              rcases hgap k' hk' m hm with hmem' | halllt
              · rcases List.mem_cons.mp hmem' with heqb | hmem''
                · exact le_of_eq heqb
                · exact absurd (hall _ hmem'') (lt_irrefl _)
              · exact le_of_lt (halllt b (List.mem_cons_self _ _))
            by_cases hb : b ∈ labelsOf q db k'
            · constructor
              · intro v hv
                rw [alookup_append, alookup_pointAt, if_pos ⟨hk', hb⟩] at hv
                have hv' : countAt q db k' b = v := by
                  cases hv; rfl
                rw [← hv', countAt, hc, if_pos rfl]
                apply List.countP_congr
                intro m hm
                simp only [List.all_eq_true, decide_eq_true_eq]
                constructor
                · intro hle b' hb'
                  exact lt_of_le_of_lt hle (hhead b' hb')
                · intro hall
                  exact hgapk m hm (by
                    simp only [List.all_eq_true, decide_eq_true_eq]
                    exact hall)
              · intro hnone
                rw [alookup_append, alookup_pointAt,
                  if_pos ⟨hk', hb⟩] at hnone
                cases hnone
            · have hcongr2 : (qRows q db k').countP
                  (fun m => (b :: rest).all
                    (fun b' => decide (q.fmt m.dateEpoch < b')))
                = (qRows q db k').countP
                  (fun m => rest.all (fun b' => decide (q.fmt m.dateEpoch < b'))) := by
                apply List.countP_congr
                intro m hm
                simp only [List.all_eq_true, List.mem_cons, decide_eq_true_eq]
                constructor
                · intro hall b' hb'
                  exact hall b' (Or.inr hb')
                · intro hall b' hb'
                  rcases hb' with rfl | hb'
                  · have hle := hgapk m hm (by
                      simp only [List.all_eq_true, decide_eq_true_eq]
                      exact hall)
                    rcases lt_or_eq_of_le hle with hlt | heqb
                    · exact hlt
                    · exact absurd (heqb ▸ fmt_mem_labelsOf hm) hb
                  · exact hall b' hb'
              rw [alookup_append, alookup_pointAt,
                if_neg (fun hcon => hb hcon.2), Option.none_or]
              constructor
              · intro v hv
                rw [← hcongr2]
                exact (hlast k' hk').1 v hv
              · intro hnone
                rw [← hcongr2]
                exact (hlast k' hk').2 hnone

/-- The values of a completed cumulative `count_over_time` run: every
bucket's entry for combination `k` is the number of `k`'s selected rows
with label at most that bucket. -/
theorem countOverTime_cumulative_values (q : StatsQuery K B) (db : StatsDb)
    (hc : q.cumulative = true) (out : List (B × List (K × Nat)))
    (h : countOverTime q db = .ok out) :
    ∀ bp ∈ out, ∀ k ∈ q.combos,
      alookup bp.2 k
        = some ((qRows q db k).countP
            (fun m => decide (q.fmt m.dateEpoch ≤ bp.1))) := by
  rw [countOverTime, hc, resultList] at h
  refine fillBuckets_values q db hc (allBucketLabels q db) [] out
    (allBucketLabels_pairwise_lt q db) ?_ ?_ h
  · intro k hk m hm
    exact Or.inl (fmt_mem_allBucketLabels hk hm)
  · intro k hk
    constructor
    · intro v hv; cases hv
    · intro _
      apply List.countP_eq_zero.mpr
      intro m hm hall
      simp only [List.all_eq_true, decide_eq_true_eq] at hall
      exact lt_irrefl _ (hall _ (fmt_mem_allBucketLabels hk hm))

/-- C8: in a cumulative `count_over_time` result, the value of any
combination key is non-decreasing across chronologically (label-)
ordered buckets. -/
theorem cumulative_series_nondecreasing (q : StatsQuery K B) (db : StatsDb)
    (out : List (B × List (K × Nat))) (hc : q.cumulative = true)
    (h : countOverTime q db = .ok out) (k : K) (hk : k ∈ q.combos)
    (b₁ b₂ : B) (p₁ p₂ : List (K × Nat))
    (h₁ : (b₁, p₁) ∈ out) (h₂ : (b₂, p₂) ∈ out) (hb : b₁ ≤ b₂)
    (v₁ v₂ : Nat) (hv₁ : alookup p₁ k = some v₁)
    (hv₂ : alookup p₂ k = some v₂) : v₁ ≤ v₂ := by
  have e₁ := countOverTime_cumulative_values q db hc out h (b₁, p₁) h₁ k hk
  have e₂ := countOverTime_cumulative_values q db hc out h (b₂, p₂) h₂ k hk
  rw [hv₁] at e₁
  rw [hv₂] at e₂
  obtain rfl := Option.some_injective _ e₁
  obtain rfl := Option.some_injective _ e₂
  apply List.countP_mono_left
  intro m _ hle
  simp only [decide_eq_true_eq] at hle ⊢
  exact le_trans hle hb

/-! ## C1 / C2 / C8: concrete statistics runs -/

/-- A resolvable store for the statistics examples: every message sits
in topic 1 of board 7.  Three messages: two in day bucket 0, one in
day bucket 2, none in day bucket 1. -/
def statsDbGap : StatsDb :=
  { msgs := [⟨1, 100, 3, 1⟩, ⟨2, 200, 3, 1⟩, ⟨3, 2 * 86400 + 5, 4, 1⟩]
    topics := fun t => if t = 1 then some ⟨some "T", some 7⟩ else none
    boards := fun b => if b = 7 then some "B" else none }

/-- The unfiltered daily query over `[0, 3 days)`, non-cumulative: one
combination (the `"1"` condition), daily buckets. -/
def dailyQueryC1 : StatsQuery Nat Int :=
  { combos := [0]
    condOf := fun _ _ => true
    cumulative := false
    startEpoch := 0
    endEpoch := 3 * 86400
    fmt := dailyBucket }

/-- The same query in cumulative mode (C8's witness run). -/
def dailyQueryC8 : StatsQuery Nat Int :=
  { dailyQueryC1 with cumulative := true }

/-- Counterexample to C1 as stated: a perfectly valid daily request
(range within `RANGE_LIMIT`, one combination) over a store with no
message in the middle day returns counts whose bucket keys are `[0, 2]`
— the native boundary `start + 86400` (day bucket 1), though strictly
between start and end, is absent.  `message_count_over_time` has no
`fill` parameter at all, so no setting can produce it. -/
theorem backfill_missing_bucket :
    rangeWithinLimit dailyQueryC1.startEpoch dailyQueryC1.endEpoch
        RANGE_LIMIT_daily = true
    ∧ tooManyCombinations dailyQueryC1.combos.length 1 1 = false
    ∧ dailyQueryC1.startEpoch + dailyIntervalSeconds < dailyQueryC1.endEpoch
    ∧ dailyBucket (dailyQueryC1.startEpoch + dailyIntervalSeconds) = 1
    ∧ (countOverTime dailyQueryC1 statsDbGap).map (fun out => out.map Prod.fst)
        = .ok [0, 2]
    ∧ (1 : Int) ∉ [(0 : Int), 2] :=
  ⟨rfl, rfl, by decide, rfl, rfl, by decide⟩

/-- C1 amended: the bucket keys of a completed `count_over_time` run
are exactly the labels carrying at least one selected row of some
combination — there is no `fill` option and no pre-population, so an
empty native bucket never appears. -/
theorem countOverTime_keys (q : StatsQuery K B) (db : StatsDb)
    (out : List (B × List (K × Nat))) (h : countOverTime q db = .ok out) :
    out.map Prod.fst = allBucketLabels q db
    ∧ ∀ b : B, b ∈ out.map Prod.fst ↔
        ∃ k ∈ q.combos, ∃ m ∈ qRows q db k, q.fmt m.dateEpoch = b := by
  rw [countOverTime] at h
  have hkeys := fillBuckets_keys q.cumulative q.combos (resultList q db) [] out h
  have h2 : (resultList q db).map Prod.fst = allBucketLabels q db := by
    rw [resultList, List.map_map]
    exact List.map_id _
  rw [hkeys, h2]
  refine ⟨rfl, fun b => ?_⟩
  rw [allBucketLabels, List.mem_insertionSort, List.mem_dedup, List.mem_flatMap]
  constructor
  · rintro ⟨k, hk, hb⟩
    rw [labelsOf, List.mem_dedup, List.mem_map] at hb
    rcases hb with ⟨m, hm, hfmt⟩
    exact ⟨k, hk, m, hm, hfmt⟩
  · rintro ⟨k, hk, m, hm, hfmt⟩
    exact ⟨k, hk, hfmt ▸ fmt_mem_labelsOf hm⟩

/-- Witness for the amended C1: on the concrete gap store the keys are
`[0, 2]`, and day bucket 1 has no selected row. -/
theorem countOverTime_keys_witness :
    ([(0 : Int), 2] = allBucketLabels dailyQueryC1 statsDbGap)
    ∧ ((1 : Int) ∈ [(0 : Int), 2] ↔
        ∃ k ∈ dailyQueryC1.combos, ∃ m ∈ qRows dailyQueryC1 statsDbGap k,
          dailyQueryC1.fmt m.dateEpoch = 1) :=
  ⟨(countOverTime_keys dailyQueryC1 statsDbGap
      [(0, [(0, 2)]), (2, [(0, 1)])] (by rfl)).1,
   (countOverTime_keys dailyQueryC1 statsDbGap
      [(0, [(0, 2)]), (2, [(0, 1)])] (by rfl)).2 1⟩

/-- The cumulative two-combination query of C2: users 0 and 1 as
separate conditions (`combine_users` off). -/
def dailyQueryC2 : StatsQuery Nat Int :=
  { combos := [0, 1]
    condOf := fun k m => decide (m.user = k)
    cumulative := true
    startEpoch := 0
    endEpoch := 10 * 86400
    fmt := dailyBucket }

/-- A store where user 0 posts in day bucket 0 and user 1 first posts
in day bucket 1. -/
def statsDbC2 : StatsDb :=
  { msgs := [⟨1, 100, 0, 1⟩, ⟨2, 86400 + 100, 1, 1⟩]
    topics := fun t => if t = 1 then some ⟨some "T", some 7⟩ else none
    boards := fun b => if b = 7 then some "B" else none }

/-- C2's failing input evaluated: in cumulative mode, when the first
bucket is processed, combination `1` is missing from it and from
`last_value` (user 1 has not been observed in any earlier bucket), so
`int(last_value[message_conditions])` raises `KeyError` — the operation
does *not* substitute zero and return normally. -/
theorem cumulative_fill_keyerror :
    countOverTime dailyQueryC2 statsDbC2 = .error () := rfl

/-- Witness for C8: the concrete cumulative run succeeds with values
2 (day 0) and 3 (day 2), and the theorem yields `2 ≤ 3`. -/
theorem cumulative_series_nondecreasing_witness :
    countOverTime dailyQueryC8 statsDbGap
      = .ok [(0, [(0, 2)]), (2, [(0, 3)])]
    ∧ (2 : Nat) ≤ 3 :=
  ⟨rfl,
   cumulative_series_nondecreasing dailyQueryC8 statsDbGap
     [(0, [(0, 2)]), (2, [(0, 3)])] (by rfl) (by rfl) 0 (by decide)
     0 2 [(0, 2)] [(0, 3)] (by decide) (by decide) (by decide)
     2 3 rfl rfl⟩

/-! ## C10: messages with an unresolved board are never counted -/

theorem joinOk_eq_false_of_bid_none {db : StatsDb} {m : SMsg} {t : STopic}
    (ht : db.topics m.tid = some t) (hbid : t.bid = none) :
    joinOk db m = false := by
  unfold joinOk
  rw [ht]
  show (match t.bid with
    | some b => (db.boards b).isSome
    | none => false) = false
  rw [hbid]

/-- C10: a stored message whose topic row has a null board id fails the
inner `join Boards using (bid)`, so it is selected for no combination
(and hence contributes to no bucket of any `count_over_time` result,
whatever the filters, combine, or cumulative settings). -/
theorem nullBoard_message_never_counted (q : StatsQuery K B) (db : StatsDb)
    (m : SMsg) (t : STopic) (ht : db.topics m.tid = some t)
    (hbid : t.bid = none) : ∀ k : K, m ∉ qRows q db k := by
  intro k hmem
  have h := (List.mem_filter.mp hmem).2
  rw [joinOk_eq_false_of_bid_none ht hbid] at h
  simp at h

/-- A store with one message whose topic has no resolved board. -/
def statsDbC10 : StatsDb :=
  { msgs := [⟨1, 100, 3, 1⟩]
    topics := fun t => if t = 1 then some ⟨some "T", none⟩ else none
    boards := fun _ => some "B" }

/-- Witness for C10: the message of `statsDbC10` is not selected for
the (unfiltered) combination of the daily query. -/
theorem nullBoard_message_never_counted_witness :
    ⟨1, 100, 3, 1⟩ ∉ qRows dailyQueryC1 statsDbC10 0 :=
  nullBoard_message_never_counted dailyQueryC1 statsDbC10
    ⟨1, 100, 3, 1⟩ ⟨some "T", none⟩ rfl rfl 0

end StatsProofs

end Tbgdb
